import Mathlib

/-!
Shallow embedding of the skillshot resume-parsing pipeline
(`src/lib/resume-parser.ts`, `src/lib/database.ts`,
`src/app/api/upload/route.ts`) and proofs about the claims of its
specification.  Text is modelled as `List Char`; JavaScript string
operations are translated function by function.
-/

namespace Skillshot

/-- The set of characters matched by the JavaScript regex class `\s`
(ECMA-262 WhiteSpace and LineTerminator code points). -/
def jsWsChars : List Char :=
  [' ', '\t', '\n', '\x0b', '\x0c', '\r',
   '\u00A0', '\u1680',
   '\u2000', '\u2001', '\u2002', '\u2003', '\u2004',
   '\u2005', '\u2006', '\u2007', '\u2008', '\u2009', '\u200A',
   '\u2028', '\u2029', '\u202F', '\u205F', '\u3000', '\uFEFF']

/-- JavaScript whitespace test: does `c` match the regex class `\s`
(also the character set removed by `String.prototype.trim`). -/
def jsIsWs (c : Char) : Bool := c ∈ jsWsChars

/-- `text.replace(/\\s+/g, " ")` — collapse every maximal run of
whitespace characters to a single space (resume-parser.ts line 355). -/
def collapseWs : List Char → List Char
  | [] => []
  | [c] => [if jsIsWs c then ' ' else c]
  | c :: d :: t =>
    if jsIsWs c && jsIsWs d then collapseWs (d :: t)
    else (if jsIsWs c then ' ' else c) :: collapseWs (d :: t)

/-- `text.trim()` — remove leading and trailing JavaScript whitespace. -/
def jsTrim (l : List Char) : List Char :=
  List.rdropWhile jsIsWs (List.dropWhile jsIsWs l)

/-- `sanitizeExtractedText` (resume-parser.ts lines 344-358): truncate to
500000 characters, delete null bytes (`replace(/\0/g, "")`), collapse
whitespace runs to single spaces, trim. -/
def sanitizeExtractedText (text : List Char) : List Char :=
  jsTrim (collapseWs ((text.take 500000).filter (fun c => c ≠ '\x00')))

/-- No run of two or more consecutive whitespace characters. -/
def noWsRun (l : List Char) : Prop :=
  l.Chain' (fun a b => jsIsWs a = false ∨ jsIsWs b = false)

lemma collapseWs_length_le (l : List Char) : (collapseWs l).length ≤ l.length := by
  induction l with
  | nil => simp [collapseWs]
  | cons c rest ih =>
    cases rest with
    | nil => simp [collapseWs]
    | cons d t =>
      by_cases h : (jsIsWs c && jsIsWs d) = true
      · rw [collapseWs, if_pos h]
        exact Nat.le_succ_of_le ih
      · rw [collapseWs, if_neg h]
        simpa using ih

lemma mem_collapseWs {c : Char} {l : List Char} (h : c ∈ collapseWs l) :
    c = ' ' ∨ c ∈ l := by
  induction l with
  | nil => simp [collapseWs] at h
  | cons a rest ih =>
    cases rest with
    | nil =>
      simp only [collapseWs, List.mem_singleton] at h
      by_cases ha : jsIsWs a = true
      · left; simpa [ha] using h
      · right; rw [if_neg ha] at h; simp [h]
    | cons d t =>
      by_cases had : (jsIsWs a && jsIsWs d) = true
      · rw [collapseWs, if_pos had] at h
        rcases ih h with h1 | h2
        · exact Or.inl h1
        · exact Or.inr (List.mem_cons_of_mem _ h2)
      · rw [collapseWs, if_neg had] at h
        rcases List.mem_cons.mp h with h1 | h2
        · by_cases ha : jsIsWs a = true
          · left; simpa [ha] using h1
          · right; rw [if_neg ha] at h1; simp [h1]
        · rcases ih h2 with h3 | h4
          · exact Or.inl h3
          · exact Or.inr (List.mem_cons_of_mem _ h4)

lemma collapseWs_cons_not_ws {d : Char} (t : List Char) (hd : jsIsWs d = false) :
    collapseWs (d :: t) = d :: collapseWs t := by
  cases t with
  | nil => simp [collapseWs, hd]
  | cons e u =>
    rw [collapseWs, hd]
    simp [hd]

lemma collapseWs_noWsRun (l : List Char) : noWsRun (collapseWs l) := by
  induction l with
  | nil => simp [collapseWs, noWsRun]
  | cons c rest ih =>
    cases rest with
    | nil =>
      rw [noWsRun, collapseWs]
      exact List.chain'_singleton _
    | cons d t =>
      by_cases h : (jsIsWs c && jsIsWs d) = true
      · rw [noWsRun, collapseWs, if_pos h]
        exact ih
      · rw [noWsRun, collapseWs, if_neg h, List.chain'_cons']
        refine ⟨?_, ih⟩
        intro y hy
        by_cases hc : jsIsWs c = true
        · have hdns : jsIsWs d = false := by
            cases hdb : jsIsWs d with
            | false => rfl
            | true => exact absurd (by simp [hc, hdb]) h
          rw [collapseWs_cons_not_ws t hdns] at hy
          simp only [List.head?_cons, Option.mem_def, Option.some.injEq] at hy
          right
          rw [← hy]; exact hdns
        · left
          rw [if_neg hc]
          exact Bool.eq_false_iff.mpr hc

lemma jsTrim_between (l : List Char) : jsTrim l <:+: l := by
  have h1 : jsTrim l <:+: List.dropWhile jsIsWs l :=
    List.IsPrefix.isInfix ( List.rdropWhile_prefix _ _)
  have h2 : List.dropWhile jsIsWs l <:+: l :=
    List.IsSuffix.isInfix ( List.dropWhile_suffix _)
  exact List.IsInfix.trans h1 h2

lemma jsTrim_noWsRun {l : List Char} (h : noWsRun l) : noWsRun (jsTrim l) :=
  List.Chain'.infix h (jsTrim_between l)

lemma jsTrim_head_not_ws {l : List Char} {c : Char}
    (h : (jsTrim l).head? = some c) : jsIsWs c = false := by
  have hpre : jsTrim l <+: List.dropWhile jsIsWs l := List.rdropWhile_prefix _ _
  have hne : jsTrim l ≠ [] := by
    intro hnil; rw [hnil] at h; simp at h
  have hdne : List.dropWhile jsIsWs l ≠ [] := by
    intro hnil
    rcases hpre with ⟨s, hs⟩
    rw [← hs] at hnil
    exact hne (List.append_eq_nil.mp hnil).1
  have hheads : (List.dropWhile jsIsWs l).head? = some c := by
    rcases hpre with ⟨s, hs⟩
    rcases List.exists_cons_of_ne_nil hne with ⟨a, t, hat⟩
    rw [← hs, hat]
    rw [hat] at h
    simpa using h
  have hhead := List.head_dropWhile_not jsIsWs l hdne
  have heq : (List.dropWhile jsIsWs l).head hdne = c := by
    rwa [List.head?_eq_head hdne, Option.some.injEq] at hheads
  rw [heq] at hhead
  exact hhead

lemma jsTrim_getLast_not_ws {l : List Char} {c : Char}
    (h : (jsTrim l).getLast? = some c) : jsIsWs c = false := by
  have hne : jsTrim l ≠ [] := by
    intro hnil; rw [hnil] at h; simp at h
  have hlast : ¬ jsIsWs ((jsTrim l).getLast hne) = true :=
    List.rdropWhile_last_not jsIsWs (List.dropWhile jsIsWs l) hne
  have heq : (jsTrim l).getLast hne = c := by
    rwa [List.getLast?_eq_getLast _ hne, Option.some.injEq] at h
  rw [heq] at hlast
  exact Bool.eq_false_iff.mpr hlast

/-- C7: for every input string, the sanitizer output has length at most
500000 characters, contains no null bytes, contains no run of two or more
consecutive whitespace characters, and has no leading or trailing
whitespace. -/
theorem sanitizeExtractedText_invariants (text : List Char) :
    (sanitizeExtractedText text).length ≤ 500000 ∧
    '\x00' ∉ sanitizeExtractedText text ∧
    noWsRun (sanitizeExtractedText text) ∧
    (∀ c, (sanitizeExtractedText text).head? = some c → jsIsWs c = false) ∧
    (∀ c, (sanitizeExtractedText text).getLast? = some c → jsIsWs c = false) := by
  refine ⟨?_, ?_, ?_, ?_, ?_⟩
  · have h1 : (sanitizeExtractedText text).length ≤
        (collapseWs ((text.take 500000).filter (fun c => c ≠ '\x00'))).length :=
      ((jsTrim_between _).sublist).length_le
    have h2 := collapseWs_length_le ((text.take 500000).filter (fun c => c ≠ '\x00'))
    have h3 : ((text.take 500000).filter (fun c => c ≠ '\x00')).length ≤
        (text.take 500000).length := List.length_filter_le _ _
    have h4 : (text.take 500000).length ≤ 500000 := by
      rw [List.length_take]
      exact min_le_left _ _
    omega
  · intro hmem
    have hmem2 : '\x00' ∈ collapseWs ((text.take 500000).filter (fun c => c ≠ '\x00')) :=
      (jsTrim_between _).subset hmem
    rcases mem_collapseWs hmem2 with h | h
    · exact absurd h (by decide)
    · have := List.of_mem_filter h
      simp at this
  · exact jsTrim_noWsRun (collapseWs_noWsRun _)
  · intro c hc
    exact jsTrim_head_not_ws hc
  · intro c hc
    exact jsTrim_getLast_not_ws hc

/-- Witness for C7 at a concrete input (leading/trailing whitespace, a
null byte and an inner whitespace run). -/
theorem sanitizeExtractedText_invariants_witness :
    jsIsWs 'a' = false ∧ jsIsWs 'b' = false := by
  have h := sanitizeExtractedText_invariants (String.toList "  a\x00 \t b  ")
  exact ⟨h.2.2.2.1 'a' (by decide), h.2.2.2.2 'b' (by decide)⟩

/-- `MIN_TIME_BETWEEN_CALLS` (resume-parser.ts line 382): one second
between calls. -/
def MIN_TIME_BETWEEN_CALLS : Nat := 1000

/-- One pass through `rateLimitedApiCall` (resume-parser.ts lines 384-395),
idealized to an exact timer over discrete milliseconds: given the
module-level `lastApiCall` timestamp and the clock value `now` at entry, it
computes the elapsed time, sleeps for the remaining delta when the elapsed
time is below the minimum spacing, and returns the instant at which the
wrapped operation is invoked.  The source then stores that instant back
into `lastApiCall`. -/
def rateLimitedCallStart (lastApiCall now : Nat) : Nat :=
  let timeSinceLastCall := now - lastApiCall
  if timeSinceLastCall < MIN_TIME_BETWEEN_CALLS then
    now + (MIN_TIME_BETWEEN_CALLS - timeSinceLastCall)
  else now

/-- Start instants of a sequence of sequentially awaited calls issued
back-to-back: the first is issued at clock time `t0`, and each later one
is issued at the instant the previous call started (zero delay between
calls). -/
def zeroDelayStarts (lastApiCall t0 : Nat) : Nat → List Nat
  | 0 => []
  | n + 1 =>
    let s := rateLimitedCallStart lastApiCall t0
    s :: zeroDelayStarts s s n

lemma rateLimitedCallStart_self (s : Nat) :
    rateLimitedCallStart s s = s + 1000 := by
  simp [rateLimitedCallStart, MIN_TIME_BETWEEN_CALLS]

lemma zeroDelayStarts_chain (last t0 n : Nat) :
    List.Chain' (fun a b => a + 1000 ≤ b) (zeroDelayStarts last t0 n) := by
  induction n generalizing last t0 with
  | zero => simp [zeroDelayStarts]
  | succ m ih =>
    rw [zeroDelayStarts, List.chain'_cons']
    refine ⟨?_, ih _ _⟩
    intro y hy
    cases m with
    | zero => simp [zeroDelayStarts] at hy
    | succ k =>
      rw [zeroDelayStarts] at hy
      simp only [List.head?_cons, Option.mem_def, Option.some.injEq] at hy
      rw [← hy, rateLimitedCallStart_self]

/-- C9: in the sequential discrete-time model, the limiter suspends for
the remaining delta whenever the elapsed time since the last recorded
call is under 1000 ms, and for any number of calls issued back-to-back
the start instants of consecutive calls are at least 1000 ms apart. -/
theorem rateLimiter_min_spacing (lastApiCall t0 n : Nat)
    (h : lastApiCall ≤ t0) :
    (t0 - lastApiCall < 1000 →
      rateLimitedCallStart lastApiCall t0 = lastApiCall + 1000) ∧
    List.Chain' (fun a b => a + 1000 ≤ b) (zeroDelayStarts lastApiCall t0 n) := by
  constructor
  · intro hlt
    rw [rateLimitedCallStart]
    simp only [MIN_TIME_BETWEEN_CALLS]
    rw [if_pos hlt]
    omega
  · exact zeroDelayStarts_chain _ _ _

/-- Witness for C9: three back-to-back calls starting from a last-call
timestamp of 0 and a clock of 500 ms. -/
theorem rateLimiter_min_spacing_witness :
    rateLimitedCallStart 0 500 = 0 + 1000 ∧
    List.Chain' (fun a b => a + 1000 ≤ b) (zeroDelayStarts 0 500 3) := by
  have h := rateLimiter_min_spacing 0 500 3 (by decide)
  exact ⟨h.1 (by decide), h.2⟩

/-- The backtick character. -/
def btick : Char := Char.ofNat 96

/-- Three consecutive backticks. -/
def ticks3 : List Char := [btick, btick, btick]

/-- The characters of the opening fence marker (three backticks followed
by `json`). -/
def fenceJson : List Char := ticks3 ++ String.toList "json"

/-- One attempted match of the regex alternation used in
`replace(/xxxjson\n?|\n?xxx/g, "")` (where `xxx` stands for three
backticks; resume-parser.ts lines 124 and 468) at the head of `s`:
alternatives are tried left to right and the optional newline is greedy.
Returns the length of the match, if any. -/
def matchFenceAt (s : List Char) : Option Nat :=
  if (fenceJson ++ ['\n']).isPrefixOf s then some 8
  else if fenceJson.isPrefixOf s then some 7
  else if ('\n' :: ticks3).isPrefixOf s then some 4
  else if ticks3.isPrefixOf s then some 3
  else none

/-- Fuel-indexed left-to-right scan of the global regex replacement with
the empty string: at each position, remove a match or advance one
character. -/
def removeFenceMatchesFuel : Nat → List Char → List Char
  | 0, _ => []
  | _, [] => []
  | fuel + 1, c :: rest =>
    match matchFenceAt (c :: rest) with
    | some n => removeFenceMatchesFuel fuel (rest.drop (n - 1))
    | none => c :: removeFenceMatchesFuel fuel rest

/-- `text.replace(/xxxjson\n?|\n?xxx/g, "")` (with `xxx` three
backticks): remove every match of the fence regex, scanning left to
right. -/
def removeFenceMatches (s : List Char) : List Char :=
  removeFenceMatchesFuel s.length s

/-- `extractedText.replace(/xxxjson\n?|\n?xxx/g, "").trim()`
(resume-parser.ts line 468): the fence-stripping step applied to every
model response before JSON parsing. -/
def stripFences (s : List Char) : List Char :=
  jsTrim (removeFenceMatches s)

/-- Wrap a document in code-fence markup: three backticks, `json`, a
newline, the document, a newline, three closing backticks. -/
def fenceWrap (d : List Char) : List Char :=
  fenceJson ++ '\n' :: (d ++ '\n' :: ticks3)

/-- Does the text contain three consecutive backticks anywhere? -/
def hasTripleTick : List Char → Bool
  | a :: b :: c :: rest =>
    (a == btick && b == btick && c == btick) || hasTripleTick (b :: c :: rest)
  | _ => false

lemma removeFenceMatchesFuel_nil (fuel : Nat) :
    removeFenceMatchesFuel fuel [] = [] := by
  cases fuel <;> rfl

lemma removeFenceMatchesFuel_congr (f1 : Nat) :
    ∀ (f2 : Nat) (s : List Char), s.length ≤ f1 → s.length ≤ f2 →
      removeFenceMatchesFuel f1 s = removeFenceMatchesFuel f2 s := by
  induction f1 with
  | zero =>
    intro f2 s h1 _
    have : s = [] := List.length_eq_zero.mp (Nat.le_zero.mp h1)
    subst this
    rw [removeFenceMatchesFuel_nil, removeFenceMatchesFuel_nil]
  | succ g1 ih =>
    intro f2 s h1 h2
    cases s with
    | nil => rw [removeFenceMatchesFuel_nil, removeFenceMatchesFuel_nil]
    | cons c rest =>
      cases f2 with
      | zero => simp at h2
      | succ g2 =>
        rw [removeFenceMatchesFuel, removeFenceMatchesFuel]
        cases hm : matchFenceAt (c :: rest) with
        | some n =>
          have hd : (rest.drop (n - 1)).length ≤ rest.length := by
            rw [List.length_drop]; omega
          have hlen : rest.length ≤ g1 := by
            simpa using h1
          have hlen2 : rest.length ≤ g2 := by
            simpa using h2
          exact ih g2 _ (le_trans hd hlen) (le_trans hd hlen2)
        | none =>
          have hlen : rest.length ≤ g1 := by simpa using h1
          have hlen2 : rest.length ≤ g2 := by simpa using h2
          rw [ih g2 rest hlen hlen2]

lemma removeFenceMatches_cons_match {c : Char} {rest : List Char} {n : Nat}
    (h : matchFenceAt (c :: rest) = some n) :
    removeFenceMatches (c :: rest) = removeFenceMatches (rest.drop (n - 1)) := by
  rw [removeFenceMatches, removeFenceMatches]
  rw [show (c :: rest).length = rest.length + 1 from rfl]
  rw [removeFenceMatchesFuel, h]
  exact removeFenceMatchesFuel_congr _ _ _
    (by rw [List.length_drop]; omega) (le_refl _)

lemma removeFenceMatches_cons_none {c : Char} {rest : List Char}
    (h : matchFenceAt (c :: rest) = none) :
    removeFenceMatches (c :: rest) = c :: removeFenceMatches rest := by
  rw [removeFenceMatches, removeFenceMatches]
  rw [show (c :: rest).length = rest.length + 1 from rfl]
  rw [removeFenceMatchesFuel, h]

lemma hasTripleTick_tail {x : Char} {s : List Char}
    (h : hasTripleTick (x :: s) = false) : hasTripleTick s = false := by
  cases s with
  | nil => rfl
  | cons a t =>
    cases t with
    | nil => rfl
    | cons b r =>
      rw [hasTripleTick] at h
      exact (Bool.or_eq_false_iff.mp h).2

lemma hasTripleTick_of_tail (x : Char) {s : List Char}
    (h : hasTripleTick s = true) : hasTripleTick (x :: s) = true := by
  cases s with
  | nil => simp [hasTripleTick] at h
  | cons a t =>
    cases t with
    | nil => simp [hasTripleTick] at h
    | cons b r =>
      rw [hasTripleTick, h]
      simp

lemma hasTripleTick_of_leading {s : List Char}
    (h : ticks3 <+: s) : hasTripleTick s = true := by
  rcases h with ⟨t, ht⟩
  rw [← ht]
  rw [show ticks3 ++ t = btick :: btick :: btick :: t from rfl]
  rw [hasTripleTick]
  simp

lemma matchFenceAt_eq_none_of_no_triple {s : List Char}
    (h : hasTripleTick s = false) : matchFenceAt s = none := by
  have h3 : ¬ ticks3 <+: s := fun hp =>
    absurd (hasTripleTick_of_leading hp) (by rw [h]; simp)
  have h1 : ¬ (fenceJson ++ ['\n']) <+: s := fun hp =>
    h3 (List.IsPrefix.trans (by exact ⟨String.toList "json" ++ ['\n'], by simp [fenceJson, ticks3]⟩) hp)
  have h2 : ¬ fenceJson <+: s := fun hp =>
    h3 (List.IsPrefix.trans (List.prefix_append _ _) hp)
  have h4 : ¬ ('\n' :: ticks3) <+: s := by
    intro hp
    cases s with
    | nil => simp at hp
    | cons a t =>
      rw [List.cons_prefix_cons] at hp
      have := hasTripleTick_of_leading hp.2
      have := hasTripleTick_of_tail a this
      rw [h] at this
      simp at this
  rw [matchFenceAt]
  rw [if_neg (by simpa using h1), if_neg (by simpa using h2),
      if_neg (by simpa using h4), if_neg (by simpa using h3)]

lemma ticks3_not_prefix_append {d : List Char}
    (hT : hasTripleTick d = false) (hne : d ≠ []) :
    ¬ ticks3 <+: (d ++ '\n' :: ticks3) := by
  intro hp
  cases d with
  | nil => exact hne rfl
  | cons a d' =>
    cases d' with
    | nil =>
      rw [show ([a] : List Char) ++ '\n' :: ticks3 = a :: '\n' :: ticks3 from rfl] at hp
      rw [show ticks3 = btick :: btick :: btick :: ([] : List Char) from rfl,
        List.cons_prefix_cons, List.cons_prefix_cons] at hp
      exact absurd hp.2.1 (by decide)
    | cons b d'' =>
      cases d'' with
      | nil =>
        rw [show ([a, b] : List Char) ++ '\n' :: ticks3 = a :: b :: '\n' :: ticks3 from rfl] at hp
        rw [show ticks3 = btick :: btick :: btick :: ([] : List Char) from rfl,
          List.cons_prefix_cons, List.cons_prefix_cons, List.cons_prefix_cons] at hp
        exact absurd hp.2.2.1 (by decide)
      | cons c r =>
        rw [show (a :: b :: c :: r) ++ '\n' :: ticks3 =
          a :: b :: c :: (r ++ '\n' :: ticks3) from rfl] at hp
        rw [show ticks3 = btick :: btick :: btick :: ([] : List Char) from rfl,
          List.cons_prefix_cons, List.cons_prefix_cons, List.cons_prefix_cons] at hp
        rw [hasTripleTick] at hT
        rcases hp with ⟨ha, hb, hc, _⟩
        rw [← ha, ← hb, ← hc] at hT
        simp at hT

lemma matchFenceAt_append_none {d : List Char}
    (hT : hasTripleTick d = false) (hne : d ≠ []) :
    matchFenceAt (d ++ '\n' :: ticks3) = none := by
  have h3 := ticks3_not_prefix_append hT hne
  have h2 : ¬ fenceJson <+: (d ++ '\n' :: ticks3) := fun hp =>
    h3 (List.IsPrefix.trans (List.prefix_append _ _) hp)
  have h1 : ¬ (fenceJson ++ ['\n']) <+: (d ++ '\n' :: ticks3) := fun hp =>
    h3 (List.IsPrefix.trans (by exact ⟨String.toList "json" ++ ['\n'], by simp [fenceJson, ticks3]⟩) hp)
  have h4 : ¬ ('\n' :: ticks3) <+: (d ++ '\n' :: ticks3) := by
    intro hp
    cases d with
    | nil => exact hne rfl
    | cons a d' =>
      rw [List.cons_append, List.cons_prefix_cons] at hp
      cases d' with
      | nil =>
        have := hp.2
        rw [show (([] : List Char) ++ '\n' :: ticks3) = '\n' :: ticks3 from rfl] at this
        rw [show ticks3 = btick :: btick :: btick :: ([] : List Char) from rfl,
          List.cons_prefix_cons] at this
        exact absurd this.1 (by decide)
      | cons b d'' =>
        exact ticks3_not_prefix_append (hasTripleTick_tail hT) (by simp) hp.2
  rw [matchFenceAt]
  rw [if_neg (by simpa using h1), if_neg (by simpa using h2),
      if_neg (by simpa using h4), if_neg (by simpa using h3)]

lemma removeFenceMatches_append_tail {d : List Char}
    (hT : hasTripleTick d = false) :
    removeFenceMatches (d ++ '\n' :: ticks3) = d := by
  induction d with
  | nil => decide
  | cons a d' ih =>
    have hm := matchFenceAt_append_none hT (by simp)
    rw [List.cons_append] at hm
    rw [List.cons_append, removeFenceMatches_cons_none hm,
      ih (hasTripleTick_tail hT)]

lemma removeFenceMatches_no_triple {d : List Char}
    (hT : hasTripleTick d = false) :
    removeFenceMatches d = d := by
  induction d with
  | nil => rfl
  | cons a d' ih =>
    rw [removeFenceMatches_cons_none (matchFenceAt_eq_none_of_no_triple hT),
      ih (hasTripleTick_tail hT)]

lemma matchFenceAt_fenceWrap (d : List Char) :
    matchFenceAt (fenceWrap d) = some 8 := by
  rw [matchFenceAt, fenceWrap]
  rw [if_pos]
  simp only [List.isPrefixOf_iff_prefix]
  exact ⟨d ++ '\n' :: ticks3, by simp⟩

lemma removeFenceMatches_fenceWrap {d : List Char}
    (hT : hasTripleTick d = false) :
    removeFenceMatches (fenceWrap d) = d := by
  have h8 := matchFenceAt_fenceWrap d
  have hshape : fenceWrap d =
      btick :: (btick :: btick :: 'j' :: 's' :: 'o' :: 'n' :: '\n' :: (d ++ '\n' :: ticks3)) := rfl
  rw [hshape] at h8 ⊢
  rw [removeFenceMatches_cons_match h8]
  rw [show (btick :: btick :: 'j' :: 's' :: 'o' :: 'n' :: '\n' ::
    (d ++ '\n' :: ticks3)).drop (8 - 1) = d ++ '\n' :: ticks3 from rfl]
  exact removeFenceMatches_append_tail hT

/-- JSON values as produced by the `JSON.parse` builtin. -/
inductive Json : Type where
  | jnull : Json
  | jbool : Bool → Json
  | jnum : Int → Json
  | jstr : List Char → Json
  | jarr : List Json → Json
  | jobj : List (List Char × Json) → Json

/-- JSON insignificant whitespace (space, tab, line feed, carriage
return). -/
def jsonWs (c : Char) : Bool :=
  c = ' ' || c = '\t' || c = '\n' || c = '\r'

/-- Skip insignificant whitespace. -/
def skipJsonWs (s : List Char) : List Char := s.dropWhile jsonWs

/-- Modelled from the spec: body of a JSON string literal for the
`JSON.parse` builtin, restricted to the subset without escape sequences
(a backslash makes the parse fail in this model). -/
def parseJsonString : List Char → Option (List Char × List Char)
  | [] => none
  | c :: r =>
    if c = '"' then some ([], r)
    else if c = '\\' then none
    else (parseJsonString r).map (fun p => (c :: p.1, p.2))

/-- Digit run folded into a natural number. -/
def digitsToNat (ds : List Char) : Nat :=
  ds.foldl (fun acc c => acc * 10 + (c.toNat - 48)) 0

/-- Modelled from the spec: a JSON numeral for the `JSON.parse` builtin,
restricted to optionally signed integers (no fraction or exponent). -/
def parseJsonNumber (s : List Char) : Option (Json × List Char) :=
  match s with
  | '-' :: r =>
    let p := r.span (fun c => c.isDigit)
    if p.1 = [] then none
    else some (Json.jnum (-(digitsToNat p.1 : Int)), p.2)
  | _ =>
    let p := s.span (fun c => c.isDigit)
    if p.1 = [] then none
    else some (Json.jnum (digitsToNat p.1), p.2)

mutual

/-- Modelled from the spec: the `JSON.parse` builtin used by
`parseResumeContent` (ECMA-404 recursive descent, fuelled), restricted to
the constructs exercised here. -/
def parseJsonValue : Nat → List Char → Option (Json × List Char)
  | 0, _ => none
  | fuel + 1, s =>
    match skipJsonWs s with
    | 'n' :: 'u' :: 'l' :: 'l' :: r => some (Json.jnull, r)
    | 't' :: 'r' :: 'u' :: 'e' :: r => some (Json.jbool true, r)
    | 'f' :: 'a' :: 'l' :: 's' :: 'e' :: r => some (Json.jbool false, r)
    | '"' :: r => (parseJsonString r).map (fun p => (Json.jstr p.1, p.2))
    | '[' :: r => (parseJsonElems fuel r).map (fun p => (Json.jarr p.1, p.2))
    | '{' :: r => (parseJsonMembers fuel r).map (fun p => (Json.jobj p.1, p.2))
    | rest => parseJsonNumber rest

/-- Array elements after the opening bracket. -/
def parseJsonElems : Nat → List Char → Option (List Json × List Char)
  | 0, _ => none
  | fuel + 1, s =>
    match skipJsonWs s with
    | ']' :: r => some ([], r)
    | s1 =>
      match parseJsonValue fuel s1 with
      | none => none
      | some (v, r1) =>
        (parseJsonElemsTail fuel r1).map (fun p => (v :: p.1, p.2))

/-- Continuation of an array: a comma and another element, or the
closing bracket. -/
def parseJsonElemsTail : Nat → List Char → Option (List Json × List Char)
  | 0, _ => none
  | fuel + 1, s =>
    match skipJsonWs s with
    | ']' :: r => some ([], r)
    | ',' :: r =>
      match parseJsonValue fuel r with
      | none => none
      | some (v, r1) =>
        (parseJsonElemsTail fuel r1).map (fun p => (v :: p.1, p.2))
    | _ => none

/-- Object members after the opening brace. -/
def parseJsonMembers : Nat → List Char → Option (List (List Char × Json) × List Char)
  | 0, _ => none
  | fuel + 1, s =>
    match skipJsonWs s with
    | '}' :: r => some ([], r)
    | s1 =>
      match parseJsonMember fuel s1 with
      | none => none
      | some (kv, r1) =>
        (parseJsonMembersTail fuel r1).map (fun p => (kv :: p.1, p.2))

/-- One `"key": value` member. -/
def parseJsonMember : Nat → List Char → Option ((List Char × Json) × List Char)
  | 0, _ => none
  | fuel + 1, s =>
    match skipJsonWs s with
    | '"' :: r =>
      match parseJsonString r with
      | none => none
      | some (k, r1) =>
        match skipJsonWs r1 with
        | ':' :: r2 => (parseJsonValue fuel r2).map (fun p => ((k, p.1), p.2))
        | _ => none
    | _ => none

/-- Continuation of an object: a comma and another member, or the
closing brace. -/
def parseJsonMembersTail : Nat → List Char → Option (List (List Char × Json) × List Char)
  | 0, _ => none
  | fuel + 1, s =>
    match skipJsonWs s with
    | '}' :: r => some ([], r)
    | ',' :: r =>
      match parseJsonMember fuel r with
      | none => none
      | some (kv, r1) =>
        (parseJsonMembersTail fuel r1).map (fun p => (kv :: p.1, p.2))
    | _ => none

end

/-- Modelled from the spec: `JSON.parse(text)` — parse one JSON value and
require only whitespace after it; `none` models a thrown `SyntaxError`. -/
def jsonParse (s : List Char) : Option Json :=
  match parseJsonValue (s.length + 1) s with
  | none => none
  | some (v, rest) => if skipJsonWs rest = [] then some v else none

example : jsonParse (String.toList "\x7b\"a\": [1, -2, null]\x7d") =
    some (Json.jobj [(String.toList "a",
      Json.jarr [Json.jnum 1, Json.jnum (-2), Json.jnull])]) := rfl

example : jsonParse (String.toList "not json") = none := rfl

/-- JavaScript truthiness of a field-access result (`none` models
`undefined`). -/
def truthy : Option Json → Bool
  | none => false
  | some Json.jnull => false
  | some (Json.jbool b) => b
  | some (Json.jnum n) => n != 0
  | some (Json.jstr s) => s != []
  | some (Json.jarr _) => true
  | some (Json.jobj _) => true

/-- JavaScript property access `v[key]`: on `null` it throws a
`TypeError` (`Except.error`), on an object it yields the property value
or `undefined` (`none`), and on any other JSON value it yields
`undefined`. -/
def jsField (v : Json) (key : List Char) : Except Unit (Option Json) :=
  match v with
  | Json.jnull => Except.error ()
  | Json.jobj fields =>
    Except.ok ((fields.find? (fun kv => kv.1 == key)).map (fun kv => kv.2))
  | _ => Except.ok none

/-- `x || dflt` on a field-access result: the original value when
truthy, otherwise the replacement. -/
def jsOr (x : Option Json) (dflt : Json) : Json :=
  if truthy x then x.getD Json.jnull else dflt

/-- Validated bullet point of the cleaned job (text verbatim, skills
after `slice(0, 5)`). -/
structure VBullet where
  text : Json
  skills : Json

/-- Cleaned job as built by the validation map (resume-parser.ts lines
483-496); `start_date` stays verbatim and may be absent. -/
structure VJob where
  company : Json
  city : Json
  state : Json
  is_remote : Json
  title : Json
  start_date : Option Json
  end_date : Json
  is_current : Json
  bullet_points : List VBullet

/-- The validated `ParsedResume`. -/
structure VResume where
  jobs : List VJob
  skills : List Json

/-- Monadic filter matching `Array.prototype.filter`: the callback runs
left to right and a thrown exception aborts the whole call. -/
def filterE {α : Type} (p : α → Except Unit Bool) : List α → Except Unit (List α)
  | [] => pure []
  | x :: xs => do
    let b ← p x
    let rest ← filterE p xs
    if b then pure (x :: rest) else pure rest

/-- Monadic map matching `Array.prototype.map`: left to right, a thrown
exception aborts the whole call. -/
def mapE {α β : Type} (f : α → Except Unit β) : List α → Except Unit (List β)
  | [] => pure []
  | x :: xs => do
    let y ← f x
    let ys ← mapE f xs
    pure (y :: ys)

/-- `bp.text && bp.text.length > 10` (resume-parser.ts line 491): the
bullet filter predicate.  `.length` of a value that is neither a string
nor an array is `undefined`, and `undefined > 10` is false. -/
def bulletKeep (bp : Json) : Except Unit Bool := do
  let t ← jsField bp (String.toList "text")
  if truthy t then
    match t with
    | some (Json.jstr s) => pure (decide (s.length > 10))
    | some (Json.jarr xs) => pure (decide (xs.length > 10))
    | _ => pure false
  else
    pure false

/-- `(bp.skills || []).slice(0, 5)` (resume-parser.ts line 494): arrays
and strings slice to their first five items; any other truthy value has
no `slice` method and throws. -/
def bulletSkills (bp : Json) : Except Unit Json := do
  let sk ← jsField bp (String.toList "skills")
  if truthy sk then
    match sk with
    | some (Json.jarr xs) => pure (Json.jarr (xs.take 5))
    | some (Json.jstr s) => pure (Json.jstr (s.take 5))
    | _ => Except.error ()
  else
    pure (Json.jarr [])

/-- `{ text: bp.text, skills: (bp.skills || []).slice(0, 5) }`
(resume-parser.ts lines 492-495). -/
def cleanBullet (bp : Json) : Except Unit VBullet := do
  let t ← jsField bp (String.toList "text")
  let sk ← bulletSkills bp
  pure ⟨t.getD Json.jnull, sk⟩

/-- `(job.bullet_points || [])` (resume-parser.ts line 490): a falsy
value defaults to the empty array; a truthy non-array value makes the
subsequent `.filter` call throw. -/
def jobBulletList (j : Json) : Except Unit (List Json) := do
  let b ← jsField j (String.toList "bullet_points")
  if truthy b then
    match b with
    | some (Json.jarr xs) => pure xs
    | _ => Except.error ()
  else
    pure []

/-- `job.company && job.title` (resume-parser.ts line 482): the job
filter predicate, with JavaScript short-circuit evaluation. -/
def keepJob (j : Json) : Except Unit Bool := do
  let c ← jsField j (String.toList "company")
  if truthy c then
    let t ← jsField j (String.toList "title")
    pure (truthy t)
  else
    pure false

/-- The per-job cleanup `{...job, city: job.city || null, ...}`
(resume-parser.ts lines 483-496), restricted to the schema fields. -/
def cleanJob (j : Json) : Except Unit VJob := do
  let company ← jsField j (String.toList "company")
  let city ← jsField j (String.toList "city")
  let state ← jsField j (String.toList "state")
  let isRemote ← jsField j (String.toList "is_remote")
  let title ← jsField j (String.toList "title")
  let startDate ← jsField j (String.toList "start_date")
  let endDate ← jsField j (String.toList "end_date")
  let isCurrent ← jsField j (String.toList "is_current")
  let bps ← jobBulletList j
  let kept ← filterE bulletKeep bps
  let cleaned ← mapE cleanBullet kept
  pure {
    company := company.getD Json.jnull
    city := jsOr city Json.jnull
    state := jsOr state Json.jnull
    is_remote := jsOr isRemote (Json.jbool false)
    title := title.getD Json.jnull
    start_date := startDate
    end_date := jsOr endDate Json.jnull
    is_current := jsOr isCurrent (Json.jbool false)
    bullet_points := cleaned }

/-- The jobs phase of the validation (resume-parser.ts lines 480-501):
filter by company/title, clean each retained job, and fail when no job
remains. -/
def jobsPhase (js : List Json) : Except Unit (List VJob) := do
  let kept ← filterE keepJob js
  let cleaned ← mapE cleanJob kept
  if cleaned.length = 0 then Except.error ()
  else pure cleaned

/-- Field-level validation of the parsed JSON (resume-parser.ts lines
471-501): `jobs` must be a truthy array, `skills` defaults to `[]` when
not a truthy array, then the jobs phase runs. -/
def validateStructure (parsed : Json) : Except Unit VResume := do
  let jobsF ← jsField parsed (String.toList "jobs")
  let js ← (match jobsF with
    | some (Json.jarr xs) => pure xs
    | _ => Except.error () : Except Unit (List Json))
  let skillsF ← jsField parsed (String.toList "skills")
  let skills := (match skillsF with
    | some (Json.jarr xs) => xs
    | _ => [])
  let vjobs ← jobsPhase js
  pure ⟨vjobs, skills⟩

/-- The single error message surfaced by the catch-all handler of
`parseResumeContent` (resume-parser.ts lines 504-509). -/
def failedParseMsg : List Char :=
  String.toList "Failed to parse resume structure. Please ensure the resume contains clear work experience sections."

/-- Body of the `try` block of `parseResumeContent` (resume-parser.ts
lines 467-503): strip code fences, `JSON.parse`, validate. -/
def parseResumeAttempt (extractedText : List Char) : Except Unit VResume := do
  let parsed ← (match jsonParse (stripFences extractedText) with
    | some v => Except.ok v
    | none => Except.error () : Except Unit Json)
  validateStructure parsed

/-- `parseResumeContent` from the model response text onward
(resume-parser.ts lines 466-510): every exception thrown inside the
`try` block is caught and replaced by the one generic error message. -/
def parseResumeContent (extractedText : List Char) : Except (List Char) VResume :=
  match parseResumeAttempt extractedText with
  | Except.ok r => Except.ok r
  | Except.error _ => Except.error failedParseMsg

@[simp] lemma bind_ok {ε α β : Type} (a : α) (f : α → Except ε β) :
    (Except.ok a >>= f) = f a := rfl

@[simp] lemma bind_err {ε α β : Type} (e : ε) (f : α → Except ε β) :
    ((Except.error e : Except ε α) >>= f) = Except.error e := rfl

@[simp] lemma pure_eq_ok {ε α : Type} (a : α) :
    (pure a : Except ε α) = Except.ok a := rfl

/-- The Boolean decided by `keepJob` when it does not throw; used to
state the filter law. -/
def keepJobD (j : Json) : Bool :=
  match keepJob j with
  | Except.ok b => b
  | Except.error _ => false

lemma keepJob_ne_null {j : Json} (hj : j ≠ Json.jnull) :
    keepJob j = Except.ok (keepJobD j) := by
  rw [keepJobD]
  cases j with
  | jnull => exact absurd rfl hj
  | jbool b => simp [keepJob, jsField, truthy]
  | jnum n => simp [keepJob, jsField, truthy]
  | jstr s => simp [keepJob, jsField, truthy]
  | jarr xs => simp [keepJob, jsField, truthy]
  | jobj fields =>
    simp only [keepJob, jsField, bind_ok]
    split
    · simp
    · simp

lemma filterE_keepJob_eq {js : List Json} (hnn : ∀ j ∈ js, j ≠ Json.jnull) :
    filterE keepJob js = Except.ok (js.filter keepJobD) := by
  induction js with
  | nil => rfl
  | cons x xs ih =>
    simp only [filterE]
    rw [keepJob_ne_null (hnn x (by simp)), bind_ok,
      ih (fun j hj => hnn j (by simp [hj])), bind_ok, List.filter_cons]
    by_cases hx : keepJobD x = true
    · rw [if_pos hx, if_pos hx]; rfl
    · rw [if_neg hx, if_neg hx]; rfl

/-- C4 (amended): every failure of `parseResumeContent` surfaces the one
generic message of the catch-all handler; the caller cannot distinguish
bad JSON or a missing jobs array from zero valid jobs after filtering. -/
theorem parseResumeContent_single_error_message (resp m : List Char)
    (h : parseResumeContent resp = Except.error m) : m = failedParseMsg := by
  rw [parseResumeContent] at h
  cases hx : parseResumeAttempt resp with
  | ok r => rw [hx] at h; simp at h
  | error e =>
    rw [hx] at h
    simp only [Except.error.injEq] at h
    exact h.symm

/-- Witness for C4 (amended) at a concrete failing response. -/
theorem parseResumeContent_single_error_message_witness :
    failedParseMsg = failedParseMsg ∧
    parseResumeContent (String.toList "oops") = Except.error failedParseMsg :=
  ⟨parseResumeContent_single_error_message (String.toList "oops")
    failedParseMsg rfl, rfl⟩

/-- C4 counterexample: a response that is not JSON, a response with no
jobs array, and a response whose only job is dropped for an empty
company all surface the identical generic message, so the surfaced
error does not distinguish "structure unparseable" from "no jobs
found". -/
theorem parseResumeContent_message_counterexample :
    parseResumeContent (String.toList "no json here") =
      Except.error failedParseMsg ∧
    parseResumeContent (String.toList "\x7b\"skills\":[]\x7d") =
      Except.error failedParseMsg ∧
    parseResumeContent
        (String.toList "\x7b\"jobs\":[\x7b\"company\":\"\",\"title\":\"Mgr\"\x7d]\x7d") =
      Except.error failedParseMsg :=
  ⟨rfl, rfl, rfl⟩

lemma jsField_ne_null {j : Json} (hj : j ≠ Json.jnull) (k : List Char) :
    ∃ v, jsField j k = Except.ok v := by
  cases j with
  | jnull => exact absurd rfl hj
  | jbool b => exact ⟨none, rfl⟩
  | jnum n => exact ⟨none, rfl⟩
  | jstr s => exact ⟨none, rfl⟩
  | jarr xs => exact ⟨none, rfl⟩
  | jobj fields => exact ⟨_, rfl⟩

lemma keepJobD_eq {j : Json} {cv tv : Option Json}
    (hc : jsField j (String.toList "company") = Except.ok cv)
    (ht : jsField j (String.toList "title") = Except.ok tv) :
    keepJobD j = (truthy cv && truthy tv) := by
  cases j with
  | jnull => simp [jsField] at hc
  | jbool b =>
    simp only [jsField, Except.ok.injEq] at hc ht
    rw [keepJobD]
    simp [keepJob, jsField, ← hc, truthy]
  | jnum n =>
    simp only [jsField, Except.ok.injEq] at hc ht
    rw [keepJobD]
    simp [keepJob, jsField, ← hc, truthy]
  | jstr s =>
    simp only [jsField, Except.ok.injEq] at hc ht
    rw [keepJobD]
    simp [keepJob, jsField, ← hc, truthy]
  | jarr xs =>
    simp only [jsField, Except.ok.injEq] at hc ht
    rw [keepJobD]
    simp [keepJob, jsField, ← hc, truthy]
  | jobj fields =>
    simp only [jsField, Except.ok.injEq] at hc ht
    rw [keepJobD]
    simp only [keepJob, jsField, bind_ok]
    rw [hc, ht]
    by_cases h1 : truthy cv = true
    · rw [if_pos h1, h1]
      simp
    · rw [if_neg h1]
      simp [Bool.eq_false_iff.mpr h1]

lemma parseResumeAttempt_eq {resp : List Char} {parsed : Json}
    (hp : jsonParse (stripFences resp) = some parsed) :
    parseResumeAttempt resp = validateStructure parsed := by
  rw [parseResumeAttempt, hp]
  simp

lemma validateStructure_run {parsed : Json} {js : List Json}
    (hjobs : jsField parsed (String.toList "jobs") =
      Except.ok (some (Json.jarr js))) :
    ∃ sv : Option Json,
      jsField parsed (String.toList "skills") = Except.ok sv ∧
      validateStructure parsed = (jobsPhase js) >>= (fun vjobs =>
        Except.ok ⟨vjobs, (match sv with
          | some (Json.jarr xs) => xs
          | _ => [])⟩) := by
  have hnn : parsed ≠ Json.jnull := by
    intro h; rw [h] at hjobs; simp [jsField] at hjobs
  obtain ⟨sv, hsv⟩ := jsField_ne_null hnn (String.toList "skills")
  refine ⟨sv, hsv, ?_⟩
  rw [validateStructure, hjobs]
  simp only [bind_ok]
  rw [hsv]
  simp only [bind_ok]
  rfl

/-- C3: job candidates with a falsy (missing or empty-string) company or
title are exactly the ones dropped by the validation filter, the
validated jobs are the cleanup of the retained candidates, and when the
filter leaves zero jobs `parseResumeContent` fails with the
`ParseFailure` error instead of returning an empty resume. -/
theorem parseResumeContent_job_filter (resp : List Char) (parsed : Json)
    (js : List Json)
    (hp : jsonParse (stripFences resp) = some parsed)
    (hjobs : jsField parsed (String.toList "jobs") =
      Except.ok (some (Json.jarr js)))
    (hnn : ∀ j ∈ js, j ≠ Json.jnull) :
    filterE keepJob js = Except.ok (js.filter keepJobD) ∧
    (∀ j cv tv, jsField j (String.toList "company") = Except.ok cv →
      jsField j (String.toList "title") = Except.ok tv →
      keepJobD j = (truthy cv && truthy tv)) ∧
    (∀ vr, parseResumeContent resp = Except.ok vr →
      mapE cleanJob (js.filter keepJobD) = Except.ok vr.jobs) ∧
    (js.filter keepJobD = [] →
      parseResumeContent resp = Except.error failedParseMsg) := by
  obtain ⟨sv, hsv, hvs⟩ := validateStructure_run hjobs
  have hfilter := filterE_keepJob_eq hnn
  refine ⟨hfilter, fun j cv tv hc ht => keepJobD_eq hc ht, ?_, ?_⟩
  · intro vr hok
    rw [parseResumeContent] at hok
    cases hx : parseResumeAttempt resp with
    | error e => rw [hx] at hok; simp at hok
    | ok r =>
      rw [hx] at hok
      simp only [Except.ok.injEq] at hok
      subst hok
      rw [parseResumeAttempt_eq hp, hvs] at hx
      cases hj : jobsPhase js with
      | error e => rw [hj] at hx; simp at hx
      | ok vjobs =>
        rw [hj, bind_ok] at hx
        rw [jobsPhase, hfilter, bind_ok] at hj
        cases hm : mapE cleanJob (js.filter keepJobD) with
        | error e => rw [hm] at hj; simp at hj
        | ok cleaned =>
          rw [hm, bind_ok] at hj
          split at hj
          · simp at hj
          · simp only [pure_eq_ok, Except.ok.injEq] at hj
            subst hj
            simp only [Except.ok.injEq] at hx
            rw [← hx]
  · intro hzero
    have hjp : jobsPhase js = Except.error () := by
      rw [jobsPhase, hfilter, hzero, bind_ok]
      rfl
    rw [parseResumeContent, parseResumeAttempt_eq hp, hvs, hjp]
    rfl

lemma cleanJob_ok_fields {j : Json} {v : VJob} (h : cleanJob j = Except.ok v) :
    ∃ (cv civ stv irv tv sdv edv icv : Option Json),
      jsField j (String.toList "company") = Except.ok cv ∧
      jsField j (String.toList "city") = Except.ok civ ∧
      jsField j (String.toList "state") = Except.ok stv ∧
      jsField j (String.toList "is_remote") = Except.ok irv ∧
      jsField j (String.toList "title") = Except.ok tv ∧
      jsField j (String.toList "start_date") = Except.ok sdv ∧
      jsField j (String.toList "end_date") = Except.ok edv ∧
      jsField j (String.toList "is_current") = Except.ok icv ∧
      v.company = cv.getD Json.jnull ∧
      v.city = jsOr civ Json.jnull ∧
      v.state = jsOr stv Json.jnull ∧
      v.is_remote = jsOr irv (Json.jbool false) ∧
      v.title = tv.getD Json.jnull ∧
      v.start_date = sdv ∧
      v.end_date = jsOr edv Json.jnull ∧
      v.is_current = jsOr icv (Json.jbool false) := by
  have hjn : j ≠ Json.jnull := by
    intro he
    rw [he] at h
    simp [cleanJob, jsField] at h
  obtain ⟨cv, hcv⟩ := jsField_ne_null hjn (String.toList "company")
  obtain ⟨civ, hciv⟩ := jsField_ne_null hjn (String.toList "city")
  obtain ⟨stv, hstv⟩ := jsField_ne_null hjn (String.toList "state")
  obtain ⟨irv, hirv⟩ := jsField_ne_null hjn (String.toList "is_remote")
  obtain ⟨tv, htv⟩ := jsField_ne_null hjn (String.toList "title")
  obtain ⟨sdv, hsdv⟩ := jsField_ne_null hjn (String.toList "start_date")
  obtain ⟨edv, hedv⟩ := jsField_ne_null hjn (String.toList "end_date")
  obtain ⟨icv, hicv⟩ := jsField_ne_null hjn (String.toList "is_current")
  refine ⟨cv, civ, stv, irv, tv, sdv, edv, icv, hcv, hciv, hstv, hirv, htv,
    hsdv, hedv, hicv, ?_⟩
  rw [cleanJob, hcv, bind_ok, hciv, bind_ok, hstv, bind_ok, hirv, bind_ok,
    htv, bind_ok, hsdv, bind_ok, hedv, bind_ok, hicv, bind_ok] at h
  cases hbl : jobBulletList j with
  | error e => rw [hbl] at h; simp at h
  | ok bps =>
    rw [hbl, bind_ok] at h
    cases hfe : filterE bulletKeep bps with
    | error e => rw [hfe] at h; simp at h
    | ok kept =>
      rw [hfe, bind_ok] at h
      cases hme : mapE cleanBullet kept with
      | error e => rw [hme] at h; simp at h
      | ok cleaned =>
        rw [hme, bind_ok] at h
        simp only [pure_eq_ok, Except.ok.injEq] at h
        rw [← h]
        exact ⟨rfl, rfl, rfl, rfl, rfl, rfl, rfl, rfl⟩

/-- C1 (amended): validation passes `city` and `state` through unchanged
(defaulting falsy values to null); the job's `is_remote` value has no
effect on them.  The nulling of city/state for remote jobs is requested
only in the model prompt, not enforced by validation. -/
theorem cleanJob_city_state_passthrough (j : Json) (cv sv : Option Json)
    (hc : jsField j (String.toList "city") = Except.ok cv)
    (hs : jsField j (String.toList "state") = Except.ok sv) :
    ∀ v, cleanJob j = Except.ok v →
      v.city = jsOr cv Json.jnull ∧ v.state = jsOr sv Json.jnull := by
  intro v h
  obtain ⟨cv2, civ, stv, irv, tv2, sdv, edv, icv, h1, h2, h3, h4, h5, h6, h7,
    h8, g1, g2, g3, g4, g5, g6, g7, g8⟩ := cleanJob_ok_fields h
  rw [hc] at h2
  rw [hs] at h3
  simp only [Except.ok.injEq] at h2 h3
  rw [g2, g3, h2, h3]
  exact ⟨rfl, rfl⟩

/-- A remote job candidate whose model response nonetheless carries a
city and a state. -/
def jobRemote : Json := Json.jobj [
  (String.toList "company", Json.jstr (String.toList "Acme")),
  (String.toList "title", Json.jstr (String.toList "Eng")),
  (String.toList "is_remote", Json.jbool true),
  (String.toList "city", Json.jstr (String.toList "NYC")),
  (String.toList "state", Json.jstr (String.toList "NY"))]

/-- The cleaned job that validation produces for `jobRemote`. -/
def jobRemoteClean : VJob :=
  { company := Json.jstr (String.toList "Acme")
    city := Json.jstr (String.toList "NYC")
    state := Json.jstr (String.toList "NY")
    is_remote := Json.jbool true
    title := Json.jstr (String.toList "Eng")
    start_date := none
    end_date := Json.jnull
    is_current := Json.jbool false
    bullet_points := [] }

/-- C1 counterexample: a full fenced model response with
`is_remote = true`, `city = "NYC"` and `state = "NY"` validates to a
resume whose job keeps the non-null city and state, refuting the
normalization law. -/
theorem remote_city_not_nulled_counterexample :
    parseResumeContent (String.toList ("```json\n\x7b\"jobs\":[\x7b\"company\":\"Acme\",\"title\":\"Eng\"," ++
      "\"is_remote\":true,\"city\":\"NYC\",\"state\":\"NY\"\x7d],\"skills\":[]\x7d\n```")) =
      Except.ok ⟨[jobRemoteClean], []⟩ ∧
    jobRemoteClean.city ≠ Json.jnull ∧
    jobRemoteClean.state ≠ Json.jnull :=
  ⟨rfl, by simp [jobRemoteClean], by simp [jobRemoteClean]⟩

/-- Witness for C1 (amended) at the concrete remote job. -/
theorem cleanJob_city_state_passthrough_witness :
    cleanJob jobRemote = Except.ok jobRemoteClean ∧
    jobRemoteClean.city = Json.jstr (String.toList "NYC") ∧
    jobRemoteClean.state = Json.jstr (String.toList "NY") := by
  have h := cleanJob_city_state_passthrough jobRemote
    (some (Json.jstr (String.toList "NYC")))
    (some (Json.jstr (String.toList "NY"))) rfl rfl jobRemoteClean rfl
  exact ⟨rfl, h.1, h.2⟩

/-- C10: retention of a job checks only that company and title are
truthy, and `company`, `title` and `start_date` are passed through to
the validated job verbatim — `start_date` may be absent or any value,
with no date validation. -/
theorem cleanJob_unvalidated_fields (j : Json) (cv tv sdv : Option Json)
    (hc : jsField j (String.toList "company") = Except.ok cv)
    (ht : jsField j (String.toList "title") = Except.ok tv)
    (hsd : jsField j (String.toList "start_date") = Except.ok sdv)
    (h1 : truthy cv = true) (h2 : truthy tv = true) :
    keepJob j = Except.ok true ∧
    (∀ v, cleanJob j = Except.ok v →
      v.company = cv.getD Json.jnull ∧ v.title = tv.getD Json.jnull ∧
      v.start_date = sdv) := by
  constructor
  · rw [keepJob, hc, bind_ok, if_pos h1, ht, bind_ok, h2]
    rfl
  · intro v h
    obtain ⟨cv2, civ, stv, irv, tv2, sdv2, edv, icv, k1, k2, k3, k4, k5, k6,
      k7, k8, g1, g2, g3, g4, g5, g6, g7, g8⟩ := cleanJob_ok_fields h
    rw [hc] at k1
    rw [ht] at k5
    rw [hsd] at k6
    simp only [Except.ok.injEq] at k1 k5 k6
    rw [g1, g5, g6, k1, k5, k6]
    exact ⟨rfl, rfl, rfl⟩

/-- A job candidate with a garbage `start_date`. -/
def jobGarbageDate : Json := Json.jobj [
  (String.toList "company", Json.jstr (String.toList "Acme")),
  (String.toList "title", Json.jstr (String.toList "Eng")),
  (String.toList "start_date", Json.jstr (String.toList "not-a-date"))]

/-- The cleaned job that validation produces for `jobGarbageDate`. -/
def jobGarbageDateClean : VJob :=
  { company := Json.jstr (String.toList "Acme")
    city := Json.jnull
    state := Json.jnull
    is_remote := Json.jbool false
    title := Json.jstr (String.toList "Eng")
    start_date := some (Json.jstr (String.toList "not-a-date"))
    end_date := Json.jnull
    is_current := Json.jbool false
    bullet_points := [] }

/-- Witness for C10: a job whose `start_date` is not a date is retained
and the value passes through verbatim. -/
theorem cleanJob_unvalidated_fields_witness :
    keepJob jobGarbageDate = Except.ok true ∧
    cleanJob jobGarbageDate = Except.ok jobGarbageDateClean ∧
    jobGarbageDateClean.start_date =
      some (Json.jstr (String.toList "not-a-date")) := by
  have h := cleanJob_unvalidated_fields jobGarbageDate
    (some (Json.jstr (String.toList "Acme")))
    (some (Json.jstr (String.toList "Eng")))
    (some (Json.jstr (String.toList "not-a-date"))) rfl rfl rfl rfl rfl
  exact ⟨h.1, rfl, (h.2 jobGarbageDateClean rfl).2.2⟩

/-- The specification example: one valid job and one with an empty
company. -/
def jobAcme : Json := Json.jobj [
  (String.toList "company", Json.jstr (String.toList "Acme")),
  (String.toList "title", Json.jstr (String.toList "Eng"))]

/-- A job candidate with an empty company name. -/
def jobNoCompany : Json := Json.jobj [
  (String.toList "company", Json.jstr []),
  (String.toList "title", Json.jstr (String.toList "Mgr"))]

/-- Witness for C3 at the specification example: the valid job is kept,
the empty-company job is dropped. -/
theorem parseResumeContent_job_filter_witness :
    filterE keepJob [jobAcme, jobNoCompany] = Except.ok [jobAcme] := by
  have hnn : ∀ j ∈ [jobAcme, jobNoCompany], j ≠ Json.jnull := by
    intro j hj
    rcases List.mem_cons.mp hj with h | h
    · subst h; simp [jobAcme]
    · have h2 := List.mem_singleton.mp h
      subst h2; simp [jobNoCompany]
  have h := parseResumeContent_job_filter
    (String.toList ("\x7b\"jobs\":[\x7b\"company\":\"Acme\",\"title\":\"Eng\"\x7d," ++
      "\x7b\"company\":\"\",\"title\":\"Mgr\"\x7d]\x7d"))
    (Json.jobj [(String.toList "jobs", Json.jarr [jobAcme, jobNoCompany])])
    [jobAcme, jobNoCompany] rfl rfl hnn
  rw [h.1]
  rfl

/-- C8 (amended): for every document containing no run of three
backticks, the fenced response and the bare response strip to the same
text — the trimmed document — and therefore produce identical JSON parse
results. -/
theorem stripFences_roundTrip (d : List Char)
    (hT : hasTripleTick d = false) :
    stripFences (fenceWrap d) = jsTrim d ∧
    stripFences d = jsTrim d ∧
    jsonParse (stripFences (fenceWrap d)) = jsonParse (stripFences d) := by
  have h1 : stripFences (fenceWrap d) = jsTrim d := by
    rw [stripFences, removeFenceMatches_fenceWrap hT]
  have h2 : stripFences d = jsTrim d := by
    rw [stripFences, removeFenceMatches_no_triple hT]
  exact ⟨h1, h2, by rw [h1, h2]⟩

/-- Witness for C8 (amended) at a concrete JSON object document. -/
theorem stripFences_roundTrip_witness :
    stripFences (fenceWrap (String.toList "\x7b\"a\":1\x7d")) =
      jsTrim (String.toList "\x7b\"a\":1\x7d") ∧
    jsonParse (stripFences (fenceWrap (String.toList "\x7b\"a\":1\x7d"))) =
      jsonParse (stripFences (String.toList "\x7b\"a\":1\x7d")) := by
  have h := stripFences_roundTrip (String.toList "\x7b\"a\":1\x7d") (by decide)
  exact ⟨h.1, h.2.2⟩

/-- C8 counterexample: a JSON string document that itself contains three
backticks.  The fence-stripping regex also deletes the inner backticks,
so the fenced form parses to a different value than the document
itself. -/
theorem stripFences_roundTrip_counterexample :
    jsonParse (stripFences (fenceWrap (String.toList "\"x```y\""))) =
      some (Json.jstr (String.toList "xy")) ∧
    jsonParse (String.toList "\"x```y\"") =
      some (Json.jstr (String.toList "x```y")) ∧
    Json.jstr (String.toList "xy") ≠ Json.jstr (String.toList "x```y") := by
  refine ⟨rfl, rfl, ?_⟩
  intro h
  injection h with h2
  exact absurd h2 (by decide)

/-- One row of the `skills` table (migration
20251107000001: `id SERIAL, user_id, name` with
`UNIQUE(user_id, name)`). -/
structure SkillRow where
  id : Nat
  user_id : Nat
  name : List Char
deriving DecidableEq

/-- The `skills` table together with its serial id counter (ids start
at 1). -/
structure SkillStore where
  rows : List SkillRow
  nextId : Nat
deriving DecidableEq

/-- `db.selectOne("skills", { user_id, name })` (db.ts): the first row
matching both equality conditions, or null. -/
def dbSelectSkill (st : SkillStore) (uid : Nat) (name : List Char) :
    Option SkillRow :=
  st.rows.find? (fun r => r.user_id == uid && r.name == name)

/-- `db.insert("skills", { user_id, name })`: fails exactly when the
`UNIQUE(user_id, name)` constraint is violated (db.ts maps the
violation to a generic error); on success appends the new row. -/
def dbInsertSkill (st : SkillStore) (uid : Nat) (name : List Char) :
    Except Unit (SkillRow × SkillStore) :=
  if st.rows.any (fun r => r.user_id == uid && r.name == name) then
    Except.error ()
  else
    Except.ok (⟨st.nextId, uid, name⟩,
      ⟨st.rows ++ [⟨st.nextId, uid, name⟩], st.nextId + 1⟩)

/-- `getOrCreateSkill` (database.ts lines 311-333): look up by exact
name; if found, return the existing row; otherwise insert, and throw
any insert error (`if (insertResult.error) throw insertResult.error`),
with no re-fetch. -/
def getOrCreateSkill (st : SkillStore) (uid : Nat) (name : List Char) :
    Except Unit (SkillRow × SkillStore) :=
  match dbSelectSkill st uid name with
  | some r => Except.ok (r, st)
  | none => dbInsertSkill st uid name

/-- JavaScript `toLowerCase`, restricted to ASCII letters (the skill
names exercised here). -/
def jsToLower (s : List Char) : List Char := s.map Char.toLower

/-- `Map.prototype.set` on the name→id map: a later entry for an
existing key overwrites it. -/
def mapSet (m : List (List Char × Nat)) (k : List Char) (v : Nat) :
    List (List Char × Nat) :=
  if m.any (fun p => p.1 == k) then
    m.map (fun p => if p.1 == k then (k, v) else p)
  else m ++ [(k, v)]

/-- `Map.prototype.get`. -/
def mapGet (m : List (List Char × Nat)) (k : List Char) : Option Nat :=
  (m.find? (fun p => p.1 == k)).map (fun p => p.2)

/-- The "create all skills first" loop of the upload handler
(upload/route.ts lines 184-191), restricted to string-valued skill
names: for each name that is non-empty and trims non-empty, resolve the
trimmed name through `getOrCreateSkill` and record
`trim().toLowerCase() → id` in the map. -/
def processTopSkills (uid : Nat) :
    SkillStore → List (List Char × Nat) → List (List Char) →
    Except Unit (SkillStore × List (List Char × Nat))
  | st, m, [] => Except.ok (st, m)
  | st, m, name :: rest =>
    if name ≠ [] ∧ jsTrim name ≠ [] then
      match getOrCreateSkill st uid (jsTrim name) with
      | Except.error e => Except.error e
      | Except.ok (row, st') =>
        processTopSkills uid st' (mapSet m (jsToLower (jsTrim name)) row.id) rest
    else
      processTopSkills uid st m rest

/-- `db.insert("bullet_point_skills", ...)`: fails exactly when the
primary key (bullet_point_id, skill_id) already exists. -/
def dbInsertLink (links : List (Nat × Nat)) (bp sk : Nat) :
    Except Unit (List (Nat × Nat)) :=
  if (bp, sk) ∈ links then Except.error ()
  else Except.ok (links ++ [(bp, sk)])

/-- `linkBulletPointToSkill` (database.ts lines 351-360): insert into
the junction relation and throw on any error. -/
def linkBulletPointToSkill (links : List (Nat × Nat)) (bp sk : Nat) :
    Except Unit (List (Nat × Nat)) :=
  dbInsertLink links bp sk

/-- The per-bullet link loop of the upload handler (upload/route.ts
lines 226-231): look each bullet skill name up by
`skillName.toLowerCase()` (not trimmed) and link when the skill id and
bullet id are truthy; an unmatched name is silently skipped. -/
def linkBulletSkills (bpId : Nat) (m : List (List Char × Nat)) :
    List (Nat × Nat) → List (List Char) → Except Unit (List (Nat × Nat))
  | links, [] => Except.ok links
  | links, name :: rest =>
    match mapGet m (jsToLower name) with
    | some skillId =>
      if skillId ≠ 0 ∧ bpId ≠ 0 then
        match linkBulletPointToSkill links bpId skillId with
        | Except.error e => Except.error e
        | Except.ok links2 => linkBulletSkills bpId m links2 rest
      else linkBulletSkills bpId m links rest
    | none => linkBulletSkills bpId m links rest

/-- At most one row per (user, exact name). -/
def storeUnique (st : SkillStore) : Prop :=
  st.rows.Pairwise (fun a b => ¬(a.user_id = b.user_id ∧ a.name = b.name))

/-- C2 (amended): skill identity is by exact (case-sensitive) trimmed
name.  Under the per-user uniqueness invariant, a successful
`getOrCreateSkill` returns a row carrying exactly the requested (user,
name), preserves the invariant, and resolving the same exact name again
returns the same row with the store unchanged. -/
theorem getOrCreateSkill_exact (st : SkillStore) (uid : Nat)
    (name : List Char) (r : SkillRow) (st2 : SkillStore)
    (hinv : storeUnique st)
    (h : getOrCreateSkill st uid name = Except.ok (r, st2)) :
    r.user_id = uid ∧ r.name = name ∧ storeUnique st2 ∧
    getOrCreateSkill st2 uid name = Except.ok (r, st2) := by
  rw [getOrCreateSkill] at h
  cases hsel : dbSelectSkill st uid name with
  | some r0 =>
    rw [hsel] at h
    simp only [Except.ok.injEq, Prod.mk.injEq] at h
    obtain ⟨hr, hst⟩ := h
    subst hr
    subst hst
    have hp := List.find?_some hsel
    simp only [Bool.and_eq_true, beq_iff_eq] at hp
    exact ⟨hp.1, hp.2, hinv, by rw [getOrCreateSkill, hsel]⟩
  | none =>
    rw [hsel] at h
    have hall : ∀ row ∈ st.rows,
        ¬(row.user_id == uid && row.name == name) = true := by
      rw [dbSelectSkill, List.find?_eq_none] at hsel
      exact hsel
    have hany : (st.rows.any (fun row => row.user_id == uid && row.name == name)) = false :=
      List.any_eq_false.mpr hall
    rw [dbInsertSkill, if_neg (by rw [hany]; simp)] at h
    simp only [Except.ok.injEq, Prod.mk.injEq] at h
    obtain ⟨hr, hst⟩ := h
    refine ⟨by rw [← hr], by rw [← hr], ?_, ?_⟩
    · rw [← hst, storeUnique]
      rw [List.pairwise_append]
      refine ⟨hinv, List.pairwise_singleton _ _, ?_⟩
      intro a ha b hb
      have hb2 := List.mem_singleton.mp hb
      subst hb2
      intro hcon
      exact hall a ha (by simp [hcon.1, hcon.2])
    · rw [getOrCreateSkill]
      have hfind : dbSelectSkill st2 uid name = some r := by
        rw [← hst, dbSelectSkill]
        rw [List.find?_append]
        rw [dbSelectSkill] at hsel
        rw [hsel]
        simp [← hr]
      rw [hfind]

/-- Witness for C2 (amended): resolving "React" twice for user 1 from
the empty store returns the same row both times and the store holds one
row. -/
theorem getOrCreateSkill_exact_witness :
    getOrCreateSkill ⟨[⟨1, 1, String.toList "React"⟩], 2⟩ 1
      (String.toList "React") =
      Except.ok (⟨1, 1, String.toList "React"⟩,
        ⟨[⟨1, 1, String.toList "React"⟩], 2⟩) := by
  have h := getOrCreateSkill_exact ⟨[], 1⟩ 1 (String.toList "React")
    ⟨1, 1, String.toList "React"⟩ ⟨[⟨1, 1, String.toList "React"⟩], 2⟩
    List.Pairwise.nil rfl
  exact h.2.2.2

/-- C2 counterexample: the upload flow resolves "React" and "react",
which differ only in letter case, to two different skill rows — two
rows for one case-insensitive name — and a bullet-level name differing
only by surrounding whitespace from a resolved skill is not linked at
all. -/
theorem skill_case_duplicate_counterexample :
    processTopSkills 1 ⟨[], 1⟩ []
        [String.toList "React", String.toList "react"] =
      Except.ok (⟨[⟨1, 1, String.toList "React"⟩,
        ⟨2, 1, String.toList "react"⟩], 3⟩,
        [(String.toList "react", 2)]) ∧
    jsToLower (jsTrim (String.toList "React")) =
      jsToLower (jsTrim (String.toList "react")) ∧
    String.toList "React" ≠ String.toList "react" ∧
    linkBulletSkills 5 [(String.toList "react", 2)] []
      [String.toList " React"] = Except.ok [] :=
  ⟨rfl, rfl, by decide, rfl⟩

/-- Interleaved execution of two concurrent `getOrCreateSkill` calls
for the same (user, name): request A runs its select against the
initial store, request B then runs to completion, and A resumes with
its insert against B's store, hitting the uniqueness constraint. -/
def getOrCreateSkillRace (st : SkillStore) (uid : Nat) (name : List Char) :
    Except Unit (SkillRow × SkillStore) :=
  match dbSelectSkill st uid name with
  | some r => Except.ok (r, st)
  | none =>
    match getOrCreateSkill st uid name with
    | Except.error e => Except.error e
    | Except.ok (_, st2) => dbInsertSkill st2 uid name

/-- C5 (amended): when the lookup finds nothing and the concurrent
writer has created the row first, `getOrCreateSkill`'s insert reports
the uniqueness violation and the error propagates — there is no
re-fetch of the existing row. -/
theorem getOrCreateSkillRace_fails (st : SkillStore) (uid : Nat)
    (name : List Char) (hsel : dbSelectSkill st uid name = none) :
    getOrCreateSkillRace st uid name = Except.error () := by
  have hall : ∀ row ∈ st.rows,
      ¬(row.user_id == uid && row.name == name) = true := by
    rw [dbSelectSkill, List.find?_eq_none] at hsel
    exact hsel
  have hany : (st.rows.any (fun row => row.user_id == uid && row.name == name)) = false :=
    List.any_eq_false.mpr hall
  have hins : dbInsertSkill st uid name =
      Except.ok (⟨st.nextId, uid, name⟩,
        ⟨st.rows ++ [⟨st.nextId, uid, name⟩], st.nextId + 1⟩) := by
    rw [dbInsertSkill, if_neg (by rw [hany]; simp)]
  have hc : ((st.rows ++ [(⟨st.nextId, uid, name⟩ : SkillRow)]).any
      (fun r => r.user_id == uid && r.name == name)) = true := by
    simp
  have hdup : dbInsertSkill
      ⟨st.rows ++ [⟨st.nextId, uid, name⟩], st.nextId + 1⟩ uid name =
      Except.error () := by
    rw [dbInsertSkill, if_pos hc]
  rw [getOrCreateSkillRace, hsel, getOrCreateSkill, hsel, hins]
  exact hdup

/-- Witness for C5 (amended) from the empty store. -/
theorem getOrCreateSkillRace_fails_witness :
    getOrCreateSkillRace ⟨[], 1⟩ 1 (String.toList "React") =
      Except.error () :=
  getOrCreateSkillRace_fails ⟨[], 1⟩ 1 (String.toList "React") rfl

/-- C5 counterexample: with requests A and B racing to create (user 1,
"React") from the empty store, A's `getOrCreateSkill` fails with the
propagated insert error instead of re-fetching and returning B's
existing row. -/
theorem getOrCreateSkill_race_counterexample :
    getOrCreateSkillRace ⟨[], 1⟩ 1 (String.toList "NodeJS") =
      Except.error () ∧
    dbSelectSkill ⟨[⟨1, 1, String.toList "NodeJS"⟩], 2⟩ 1
      (String.toList "NodeJS") = some ⟨1, 1, String.toList "NodeJS"⟩ :=
  ⟨rfl, rfl⟩

/-- C6 (amended): inserting an already-linked (bulletPointId, skillId)
pair into the junction relation violates its primary key and
`linkBulletPointToSkill` rethrows the error, failing the caller. -/
theorem linkBulletPointToSkill_duplicate (links : List (Nat × Nat))
    (bp sk : Nat) (h : (bp, sk) ∈ links) :
    linkBulletPointToSkill links bp sk = Except.error () := by
  rw [linkBulletPointToSkill, dbInsertLink, if_pos h]

/-- Witness for C6 (amended). -/
theorem linkBulletPointToSkill_duplicate_witness :
    linkBulletPointToSkill [(5, 2)] 5 2 = Except.error () :=
  linkBulletPointToSkill_duplicate [(5, 2)] 5 2 (by simp)

/-- C6 counterexample: linking a pair that is already linked fails, and
the failure is reachable in the upload flow — a bullet whose skill list
contains "React" and "react" maps both to the same skill id, and the
second link attempt aborts the loop with an error instead of being
ignored. -/
theorem linkBulletSkills_duplicate_counterexample :
    linkBulletPointToSkill [(5, 2)] 5 2 = Except.error () ∧
    linkBulletSkills 5 [(String.toList "react", 2)] []
      [String.toList "React", String.toList "react"] = Except.error () :=
  ⟨rfl, rfl⟩

end Skillshot
